import Mathlib

/-!
Verification of the busoc/panda VMU ingestion pipeline against its design
document.  The Go sources are embedded shallowly: machine integers become
`Nat` (with explicit `% 2 ^ w` where the width matters), byte streams become
`List Nat`, `time.Time` / `time.Duration` values become `Int` nanoseconds
since the Unix epoch, and fallible operations return `Option` / `Except`.
Definition names follow the Go source (`DecodePacket`, `EncodePacket`,
`Valid`, `joinPathTime`, ...).
-/

set_option maxRecDepth 4000

namespace Panda

/-- A raw byte stream (each element is one unsigned byte, `< 256`). -/
abbrev ByteStream := List Nat

/-- Big-endian interpretation of a byte list (`binary.BigEndian`). -/
def beU (bs : List Nat) : Nat := bs.foldl (fun a b => a * 256 + b) 0

/-- `n`-byte big-endian encoding of `v % 256 ^ n` (`binary.Write BigEndian`). -/
def bytesBE : Nat → Nat → List Nat
  | 0, _ => []
  | n + 1, v => bytesBE n (v / 256) ++ [v % 256]

/-- `n`-byte little-endian encoding of `v % 256 ^ n` (`binary.Write LittleEndian`). -/
def bytesLE : Nat → Nat → List Nat
  | 0, _ => []
  | n + 1, v => v % 256 :: bytesLE n (v / 256)

/-- Little-endian interpretation of a byte list (`binary.LittleEndian`). -/
def leU (bs : List Nat) : Nat := bs.foldr (fun b a => a * 256 + b) 0

/-- Errors of the frame reader.  `eof` is `io.EOF` (no byte available at the
start of a read), `unexpectedEof` is `io.ErrUnexpectedEOF` (a read satisfied
only partially), `badPreamble` is the `invalid preamble` error of
`readPreamble`, `fragmentMismatch` the `version mismatched` error of the v2
reassembly loop, and `unsupportedProtocol` is `ErrUnsupportedProtocol`. -/
inductive DErr where
  | eof
  | unexpectedEof
  | badPreamble
  | unsupportedProtocol
  | fragmentMismatch
  deriving DecidableEq, Repr

/-- Read exactly `n` bytes (`io.ReadFull` / `binary.Read`).  On a short
stream the available bytes are still consumed, as with a real reader. -/
def readBytes (n : Nat) (s : ByteStream) : Except DErr (List Nat) × ByteStream :=
  if n ≤ s.length then (.ok (s.take n), s.drop n)
  else ((.error (if s.length = 0 then .eof else .unexpectedEof)), [])

/-- Read an `n`-byte big-endian unsigned integer. -/
def readBE (n : Nat) (s : ByteStream) : Except DErr Nat × ByteStream :=
  match readBytes n s with
  | (.ok bs, r) => (.ok (beU bs), r)
  | (.error e, r) => (.error e, r)

/-- `hadock.Packet` (`src/hadock/proto.go`).  All fields are kept as `Nat`
models of the Go unsigned integers. -/
structure Packet where
  Protocol : Nat
  Version : Nat
  Instance : Nat
  Sequence : Nat
  Length : Nat
  Payload : List Nat
  Sum : Nat
  Curr : Nat
  Last : Nat
  deriving DecidableEq, Repr

/-- `hadock.Preamble = 0xf82e3553`. -/
def Preamble : Nat := 0xf82e3553

/-- The big-endian bytes of the preamble as they appear on the wire. -/
def preambleBytes : List Nat := [0xf8, 0x2e, 0x35, 0x53]

/-- `readPreamble`: reads the 4-byte preamble, rejects any value other than
`Preamble`, then reads and returns the 2-byte prefix. -/
def readPreamble (s : ByteStream) : Except DErr Nat × ByteStream :=
  match readBE 4 s with
  | (.error e, r) => (.error e, r)
  | (.ok w, r) =>
    if w ≠ Preamble then (.error .badPreamble, r)
    else readBE 2 r

/-- `readPacket`: sequence (u16 BE), length (u32 BE), payload of `length`
bytes, checksum (u16 BE). -/
def readPacket (s : ByteStream) :
    Except DErr (Nat × Nat × List Nat × Nat) × ByteStream :=
  match readBE 2 s with
  | (.error e, r) => (.error e, r)
  | (.ok sq, r) =>
    match readBE 4 r with
    | (.error e, r1) => (.error e, r1)
    | (.ok ln, r1) =>
      match readBytes ln r1 with
      | (.error e, r2) => (.error e, r2)
      | (.ok pl, r2) =>
        match readBE 2 r2 with
        | (.error e, r3) => (.error e, r3)
        | (.ok sm, r3) => (.ok (sq, ln, pl, sm), r3)

/-- One v2 fragment: `Curr`/`Last` counters plus the packet body fields. -/
structure Frag where
  Curr : Nat
  Last : Nat
  Sequence : Nat
  Length : Nat
  Payload : List Nat
  Sum : Nat
  deriving DecidableEq, Repr

/-- `readFragment`: curr (u16 BE), last (u16 BE), then the packet body. -/
def readFragment (s : ByteStream) : Except DErr Frag × ByteStream :=
  match readBE 2 s with
  | (.error e, r) => (.error e, r)
  | (.ok cu, r) =>
    match readBE 2 r with
    | (.error e, r1) => (.error e, r1)
    | (.ok la, r1) =>
      match readPacket r1 with
      | (.error e, r2) => (.error e, r2)
      | (.ok (sq, ln, pl, sm), r2) => (.ok ⟨cu, la, sq, ln, pl, sm⟩, r2)

/-- The v2 reassembly loop of `DecodePacket`: read fragments until
`Curr = Last`; every fragment after the first must be preceded by a fresh
preamble whose prefix equals the initial one.  Fragments are sorted by
`Curr` and their payloads concatenated; the assembled packet takes the final
fragment's sequence and length (its `Sum`, `Curr` and `Last` stay at the Go
zero value).  The loop is driven by explicit fuel; each iteration consumes at
least one byte, so `s.length + 1` fuel is always sufficient. -/
def decodeFragments (pfx : Nat) (protocol version inst : Nat) :
    Nat → ByteStream → List Frag → Except DErr Packet × ByteStream
  | 0, s, _ => (.error .eof, s)
  | fuel + 1, s, acc =>
    match readFragment s with
    | (.error e, r) => (.error e, r)
    | (.ok f, r) =>
      let acc1 := acc ++ [f]
      if f.Curr = f.Last then
        let sorted := acc1.insertionSort (fun a b => a.Curr ≤ b.Curr)
        (.ok ⟨protocol, version, inst, f.Sequence, f.Length,
              (sorted.map Frag.Payload).flatten, 0, 0, 0⟩, r)
      else
        match readPreamble r with
        | (.error e, r1) => (.error e, r1)
        | (.ok x, r1) =>
          if x ≠ pfx then (.error .fragmentMismatch, r1)
          else decodeFragments pfx protocol version inst fuel r1 acc1

/-- `DecodePacket` (`src/hadock/proto.go`): preamble + prefix, then either
the single-shot v1 body (protocol 0) or the fragmented v2 loop (protocol 1).
The prefix nibble extractions `prefix>>12`, `(prefix>>8)&0x0F` and
`prefix&0xFF` are written with `/` and `%`, which agree with the Go shifts
and masks on unsigned values. -/
def DecodePacket (s : ByteStream) : Except DErr Packet × ByteStream :=
  match readPreamble s with
  | (.error e, r) => (.error e, r)
  | (.ok pfx, r) =>
    let protocol := pfx / 4096
    let version := (pfx / 256) % 16
    let inst := pfx % 256
    if protocol = 0 then
      match readPacket r with
      | (.error e, r1) => (.error e, r1)
      | (.ok (sq, ln, pl, sm), r1) =>
        (.ok ⟨protocol, version, inst, sq, ln, pl, sm, 0, 0⟩, r1)
    else if protocol = 1 then
      decodeFragments pfx protocol version inst (r.length + 1) r []
    else (.error .unsupportedProtocol, r)

/-- `EncodePacket`: fails unless `Version = HadockVersion1 = 0`; writes the
prefix byte `uint8(Protocol<<4|Version)`, the instance byte, sequence (u16),
length (u32), the payload bytes and the checksum (u16).  Note that the
4-byte preamble is NOT written. -/
def EncodePacket (p : Packet) : Option (List Nat) :=
  if p.Version ≠ 0 then none
  else some ((((p.Protocol % 256) * 16 % 256).lor (p.Version % 256)) ::
    p.Instance % 256 ::
    bytesBE 2 p.Sequence ++ bytesBE 4 p.Length ++ p.Payload ++ bytesBE 2 p.Sum)

/-- The instance filter test of `DecodeBinaryPackets`: `is` is sorted and
probed with `sort.Search`; the packet is meant to be dropped when `is` is
non-empty and does not contain the packet's instance. -/
def allowedInstance (is : List Nat) (i : Nat) : Bool :=
  is.isEmpty || is.contains i

/-- The receive loop of `DecodeBinaryPackets`, with explicit fuel.  On a
successful decode the Go code computes the instance-filter test and, when the
packet should be dropped, executes `break` — but that `break` exits only the
`switch` statement, not the `for` loop, so control falls through to
`q <- p` and the packet is emitted regardless of the filter.  `io.EOF`,
`ErrUnsupportedProtocol` and `ErrUnsupportedVMUVersion` terminate the loop;
any other error hits the `default: continue` branch. -/
def decodeLoop (is : List Nat) : Nat → ByteStream → List Packet
  | 0, _ => []
  | fuel + 1, s =>
    match DecodePacket s with
    | (.ok p, r) =>
      let _keep := allowedInstance is p.Instance
      p :: decodeLoop is fuel r
    | (.error e, r) =>
      match e with
      | .eof => []
      | .unsupportedProtocol => []
      | _ => decodeLoop is fuel r

/-- `DecodeBinaryPackets` on a finite stream: the list of packets sent on the
output channel.  Each loop iteration consumes at least one byte of the
stream, so `s.length + 1` fuel covers every iteration. -/
def DecodeBinaryPackets (s : ByteStream) (is : List Nat) : List Packet :=
  decodeLoop is (s.length + 1) s

end Panda

namespace Panda

/-! ### Byte-codec lemmas -/

@[simp] theorem bytesBE_length (n v : Nat) : (bytesBE n v).length = n := by
  induction n generalizing v with
  | zero => rfl
  | succ n ih => simp [bytesBE, ih]

theorem beU_append_single (l : List Nat) (x : Nat) :
    beU (l ++ [x]) = beU l * 256 + x := by
  simp [beU]

theorem beU_bytesBE (n v : Nat) : beU (bytesBE n v) = v % 256 ^ n := by
  induction n generalizing v with
  | zero => simp [bytesBE, beU, Nat.mod_one]
  | succ n ih =>
    rw [bytesBE, beU_append_single, ih]
    have hp : (256 : Nat) ^ (n + 1) = 256 * 256 ^ n := by ring
    rw [hp, Nat.mod_mul]
    ring

theorem readBytes_append (bs r : List Nat) :
    readBytes bs.length (bs ++ r) = (.ok bs, r) := by
  simp [readBytes, List.take_left, List.drop_left]

theorem readBE_append (n v : Nat) (r : List Nat) :
    readBE n (bytesBE n v ++ r) = (.ok (v % 256 ^ n), r) := by
  unfold readBE
  have h := readBytes_append (bytesBE n v) r
  rw [bytesBE_length] at h
  rw [h]
  simp [beU_bytesBE]

/-! ### The frame reader: reading back an encoded v1 packet -/

theorem readPreamble_append (x y : Nat) (r : ByteStream) :
    readPreamble (preambleBytes ++ x :: y :: r) = (.ok (x * 256 + y), r) := by
  simp [readPreamble, readBE, readBytes, preambleBytes, Preamble, beU]

theorem readPacket_append (sq ln : Nat) (pl : List Nat) (sm : Nat)
    (hs : sq < 65536) (hln : ln = pl.length) (hl32 : ln < 4294967296)
    (hsm : sm < 65536) :
    readPacket (bytesBE 2 sq ++ (bytesBE 4 ln ++ (pl ++ bytesBE 2 sm))) =
      (.ok (sq, ln, pl, sm), []) := by
  have e1 : sq % 256 ^ 2 = sq := Nat.mod_eq_of_lt (by norm_num; omega)
  have e3 : sm % 256 ^ 2 = sm := Nat.mod_eq_of_lt (by norm_num; omega)
  have h2 := readBE_append 2 sm []
  rw [List.append_nil] at h2
  subst hln
  have e2 : pl.length % 256 ^ 4 = pl.length := Nat.mod_eq_of_lt (by norm_num; omega)
  simp only [readPacket, readBE_append, e1, e2, e3, readBytes_append, h2]

/-- C3 (amended): the v1 roundtrip holds once the missing 4-byte preamble is
prepended to `EncodePacket`'s output, for packets with `Protocol = 0`,
`Version = 0`, in-range fields and a `Length` field matching the payload
size; the decoded packet agrees with the original on protocol, version,
instance, sequence, length, payload and sum (only the fragment counters
`Curr`/`Last` are re-initialised to zero). -/
theorem DecodePacket_EncodePacket (p : Packet) (bs : List Nat)
    (h0 : p.Protocol = 0) (h1 : p.Version = 0) (hi : p.Instance < 256)
    (hs : p.Sequence < 65536) (hl : p.Length = p.Payload.length)
    (hl32 : p.Length < 4294967296) (hsum : p.Sum < 65536)
    (he : EncodePacket p = some bs) :
    DecodePacket (preambleBytes ++ bs) = (.ok { p with Curr := 0, Last := 0 }, []) := by
  obtain ⟨pr, ve, ins, sq, ln, pl, sm, cu, la⟩ := p
  simp only at h0 h1 hi hs hl hl32 hsum
  subst h0 h1
  simp only [EncodePacket, ne_eq, not_true_eq_false, if_neg, ite_false,
    Option.some.injEq, not_false_eq_true, if_false] at he
  rw [Nat.mod_eq_of_lt hi] at he
  norm_num at he
  subst he
  rw [DecodePacket, readPreamble_append]
  rw [show Nat.lor 0 0 = 0 from by decide]
  simp only [Nat.zero_mul, Nat.zero_add]
  rw [show ins / 4096 = 0 from Nat.div_eq_of_lt (by omega),
      show ins / 256 = 0 from Nat.div_eq_of_lt (by omega),
      show ins % 256 = ins from Nat.mod_eq_of_lt hi,
      readPacket_append sq ln pl sm hs hl hl32 hsum]
  simp only [Nat.zero_mod, reduceIte]

/-- C3 (counterexample): `EncodePacket` never writes the 4-byte preamble, so
feeding its output straight back to `DecodePacket` fails with the invalid
preamble error even for the simplest v1 packet. -/
theorem EncodePacket_missing_preamble :
    EncodePacket ⟨0, 0, 255, 1, 0, [], 0, 0, 0⟩ = some [0, 255, 0, 1, 0, 0, 0, 0, 0, 0] ∧
    DecodePacket [0, 255, 0, 1, 0, 0, 0, 0, 0, 0] = (.error .badPreamble, [0, 0, 0, 0, 0, 0]) :=
  ⟨rfl, rfl⟩

/-- Witness for the amended v1 roundtrip at a concrete packet. -/
theorem DecodePacket_EncodePacket_witness :
    DecodePacket (preambleBytes ++ [0, 255, 0, 1, 0, 0, 0, 0, 0, 0]) =
      (.ok { Protocol := 0, Version := 0, Instance := 255, Sequence := 1,
             Length := 0, Payload := [], Sum := 0, Curr := 0, Last := 0 }, []) :=
  DecodePacket_EncodePacket ⟨0, 0, 255, 1, 0, [], 0, 0, 0⟩ _ rfl rfl (by decide)
    (by decide) rfl (by decide) (by decide) rfl

/-- C2: the instance filter of `DecodeBinaryPackets` is inoperative.  The Go
code computes the filter test and, for a disallowed instance, executes
`break` — which exits only the `switch` statement, not the receive loop — so
the packet is sent on the channel anyway.  Here a packet with instance 5 is
emitted although the allow-list is `[3]`. -/
theorem DecodeBinaryPackets_emits_disallowed_instance :
    DecodeBinaryPackets
        [0xf8, 0x2e, 0x35, 0x53, 0x00, 0x05, 0x00, 0x01, 0, 0, 0, 2, 9, 9, 0, 0] [3] =
      [⟨0, 0, 5, 1, 2, [9, 9], 0, 0, 0⟩] ∧
    allowedInstance [3] 5 = false :=
  ⟨rfl, rfl⟩

/-- C8 (counterexample): a preamble mismatch does not terminate the stream.
The first four bytes `[1,2,3,4]` fail the preamble check, yet the packet that
follows them is still decoded and emitted. -/
theorem preambleMismatch_not_fatal :
    DecodeBinaryPackets
        ([1, 2, 3, 4] ++
          [0xf8, 0x2e, 0x35, 0x53, 0x00, 0x05, 0x00, 0x01, 0, 0, 0, 2, 9, 9, 0, 0]) [] =
      [⟨0, 0, 5, 1, 2, [9, 9], 0, 0, 0⟩] :=
  rfl

theorem readPreamble_mismatch (s : ByteStream) (h4 : 4 ≤ s.length)
    (hp : beU (s.take 4) ≠ Preamble) :
    readPreamble s = (.error .badPreamble, s.drop 4) := by
  rw [readPreamble, readBE]
  simp [readBytes, h4, hp]

theorem DecodePacket_mismatch (s : ByteStream) (h4 : 4 ≤ s.length)
    (hp : beU (s.take 4) ≠ Preamble) :
    DecodePacket s = (.error .badPreamble, s.drop 4) := by
  rw [DecodePacket, readPreamble_mismatch s h4 hp]

/-- C8 (amended): on a preamble mismatch the reader consumes the four
offending bytes and simply continues decoding at the next byte (the error
falls into the `default: continue` branch); only EOF and the unsupported
protocol errors end the stream. -/
theorem decodeLoop_skips_bad_preamble (is : List Nat) (fuel : Nat) (s : ByteStream)
    (h4 : 4 ≤ s.length) (hp : beU (s.take 4) ≠ Preamble) :
    decodeLoop is (fuel + 1) s = decodeLoop is fuel (s.drop 4) := by
  rw [decodeLoop, DecodePacket_mismatch s h4 hp]

/-- Witness for the amended preamble-mismatch behaviour at a concrete
stream. -/
theorem decodeLoop_skips_bad_preamble_witness :
    4 ≤ ([1, 2, 3, 4, 9] : ByteStream).length ∧
    beU (([1, 2, 3, 4, 9] : ByteStream).take 4) ≠ Preamble ∧
    decodeLoop [] 3 [1, 2, 3, 4, 9] = decodeLoop [] 2 (([1, 2, 3, 4, 9] : ByteStream).drop 4) :=
  ⟨by decide, by decide,
    decodeLoop_skips_bad_preamble [] 2 [1, 2, 3, 4, 9] (by decide) (by decide)⟩

/-! ### The module pipeline (`multiModule.Process`, `src/hadock/proto.go`) -/

/-- A `hadock.Module`.  The Go interface method `Process(uint8, HRPacket)`
performs side effects and returns an error; a child is therefore embedded as
a transformer of an abstract world state `σ` paired with an optional error
`ε`, which keeps the composite's per-child calls observable. -/
def Module (σ ε : Type) := σ → σ × Option ε

/-- The error-keeping assignment of `multiModule.Process`:
`if e := m.Process(i, p); err == nil && e != nil { err = e }` — the
remembered error is only overwritten while it is still nil. -/
def keepFirst {ε : Type} (err e : Option ε) : Option ε :=
  match err, e with
  | none, some e2 => some e2
  | _, _ => err

theorem keepFirst_none {ε : Type} (e : Option ε) : keepFirst none e = e := by
  cases e <;> rfl

theorem keepFirst_some {ε : Type} (x : ε) (e : Option ε) :
    keepFirst (some x) e = some x := by
  cases e <;> rfl

/-- The loop of `multiModule.Process` over the remaining children, carrying
the remembered error. -/
def processFrom {σ ε : Type} : List (Module σ ε) → σ → Option ε → σ × Option ε
  | [], s, err => (s, err)
  | m :: ms, s, err =>
    let r := m s
    processFrom ms r.1 (keepFirst err r.2)

/-- `hadock.Process` builds the composite; its `Process` runs every child in
order starting with a nil remembered error. -/
def Process {σ ε : Type} (ms : List (Module σ ε)) (s : σ) : σ × Option ε :=
  processFrom ms s none

/-- The state after every child has been applied in order. -/
def runAll {σ ε : Type} (ms : List (Module σ ε)) (s : σ) : σ :=
  ms.foldl (fun t m => (m t).1) s

/-- The first non-nil error produced along the run. -/
def firstError {σ ε : Type} : List (Module σ ε) → σ → Option ε
  | [], _ => none
  | m :: ms, s =>
    match (m s).2 with
    | some e => some e
    | none => firstError ms (m s).1

theorem processFrom_some {σ ε : Type} (ms : List (Module σ ε)) (s : σ) (e : ε) :
    processFrom ms s (some e) = (runAll ms s, some e) := by
  induction ms generalizing s with
  | nil => rfl
  | cons m ms ih =>
    rw [processFrom, keepFirst_some, ih]
    rfl

/-- C7 (amended): the composite module applies every child in order — even
after a failure — and returns the FIRST non-nil error seen (nil when no
child failed), not the last one. -/
theorem Process_runs_all_and_returns_first_error {σ ε : Type}
    (ms : List (Module σ ε)) (s : σ) :
    Process ms s = (runAll ms s, firstError ms s) := by
  unfold Process
  induction ms generalizing s with
  | nil => rfl
  | cons m ms ih =>
    rw [processFrom, keepFirst_none, firstError]
    cases h : (m s).2 with
    | none => rw [ih]; rfl
    | some e => rw [processFrom_some]; rfl

/-- C7 (counterexample): with two children that both fail (errors `1` and
`2`) the composite runs both (the state records both calls) but returns the
first error `1`, not the last-seen error `2`. -/
theorem Process_first_error_not_last :
    Process [fun s => (s ++ [1], some 1), fun s => (s ++ [2], some 2)]
        ([] : List Nat) = ([1, 2], some 1) ∧
    (some 1 : Option Nat) ≠ some 2 :=
  ⟨rfl, by decide⟩

/-! ### VMU products (`src/hrd.go`) -/

def VMUHeaderLength : Nat := 16
def IDHeaderLengthV1 : Nat := 72
def SDHeaderLengthV1 : Nat := 8

/-- `Channel` values `Video1`, `Video2`, `Science`. -/
def Video1 : Nat := 1
def Video2 : Nat := 2
def Science : Nat := 3

/-- Science source ids. -/
def RUBUnit : Nat := 0x36
def Alv1 : Nat := 0x39
def Alv2 : Nat := 0x40
def SMDUnit : Nat := 0x41
def LRSD : Nat := 0x51
def LCP : Nat := 0x90

structure VMUHeader where
  Channel : Nat
  Source : Nat
  Sequence : Nat
  Coarse : Nat
  Fine : Nat
  deriving DecidableEq, Repr

structure SDHv1 where
  Sequence : Nat
  deriving DecidableEq, Repr

/-- `SDHv2`.  `Acquisition`/`Auxiliary` are `time.Duration` (int64
nanoseconds), `Info` the 32 raw UPI bytes. -/
structure SDHv2 where
  Properties : Nat
  Sequence : Nat
  Originator : Nat
  Acquisition : Int
  Auxiliary : Int
  Id : Nat
  Info : List Nat
  deriving DecidableEq, Repr

/-- `IDHv1`.  `Ty` is the Go field `Type`; `Rate` holds the bit pattern of
the `float32` field — the codecs only ever move its four bytes. -/
structure IDHv1 where
  Sequence : Nat
  Coarse : Nat
  Fine : Nat
  Part : Nat
  Video : Nat
  Ty : Nat
  Rate : Nat
  Pixels : Nat
  Region : Nat
  LineDrop : Nat
  FrameDrop : Nat
  Info : List Nat
  deriving DecidableEq, Repr

structure IDHv2 where
  Properties : Nat
  Sequence : Nat
  Originator : Nat
  Acquisition : Int
  Auxiliary : Int
  Id : Nat
  Ty : Nat
  Pixels : Nat
  Region : Nat
  Dropping : Nat
  Scaling : Nat
  Ratio : Nat
  Info : List Nat
  deriving DecidableEq, Repr

/-- The `Table.SDH interface{}` field: one of the two science headers, or
any other dynamic value (`other`), which every type switch sends to its
default branch. -/
inductive SDH where
  | v1 (h : SDHv1)
  | v2 (h : SDHv2)
  | other
  deriving DecidableEq, Repr

/-- The `Image.IDH interface{}` field. -/
inductive IDH where
  | v1 (h : IDHv1)
  | v2 (h : IDHv2)
  | other
  deriving DecidableEq, Repr

structure Table where
  VMU : VMUHeader
  SDH : SDH
  Data : List Nat
  Sum : Nat
  deriving DecidableEq, Repr

structure Image where
  VMU : VMUHeader
  IDH : IDH
  Data : List Nat
  Sum : Nat
  deriving DecidableEq, Repr

/-- The two concrete `HRPacket` implementations that `Valid` recognises. -/
inductive HRPacket where
  | table (t : Table)
  | image (i : Image)
  deriving DecidableEq, Repr

/-- Little-endian two's-complement encoding of an int64
(`binary.Write LittleEndian` on a Go `int64` / `time.Duration`). -/
def int64Bytes (v : Int) : List Nat :=
  bytesLE 8 (v.emod 18446744073709551616).toNat

/-- `encodeVMU`: channel, source, 2-byte pad, sequence, coarse, fine,
2-byte pad — all little-endian. -/
def encodeVMU (v : VMUHeader) : List Nat :=
  [v.Channel % 256, v.Source % 256] ++ bytesLE 2 0 ++ bytesLE 4 v.Sequence ++
    bytesLE 4 v.Coarse ++ bytesLE 2 v.Fine ++ bytesLE 2 0

/-- `encodeSDHv1`: sequence plus 4 pad bytes. -/
def encodeSDHv1 (s : SDHv1) : List Nat :=
  bytesLE 4 s.Sequence ++ bytesLE 4 0

/-- `encodeSDHv2`: properties, sequence, originator, acquisition, auxiliary,
id, then the 32 raw info bytes. -/
def encodeSDHv2 (s : SDHv2) : List Nat :=
  s.Properties % 256 :: (bytesLE 2 s.Sequence ++ bytesLE 4 s.Originator ++
    int64Bytes s.Acquisition ++ int64Bytes s.Auxiliary ++ [s.Id % 256] ++ s.Info)

/-- `encodeIDHv1`. -/
def encodeIDHv1 (i : IDHv1) : List Nat :=
  bytesLE 4 i.Sequence ++ bytesLE 4 i.Coarse ++ bytesLE 2 i.Fine ++
    [i.Part % 256, i.Video % 256, i.Ty % 256] ++ bytesLE 4 i.Rate ++
    bytesLE 4 i.Pixels ++ bytesLE 8 i.Region ++ [i.LineDrop % 256] ++
    bytesLE 2 i.FrameDrop ++ bytesLE 8 0 ++ i.Info

/-- `encodeIDHv2`. -/
def encodeIDHv2 (i : IDHv2) : List Nat :=
  i.Properties % 256 :: (bytesLE 2 i.Sequence ++ bytesLE 4 i.Originator ++
    int64Bytes i.Acquisition ++ int64Bytes i.Auxiliary ++
    [i.Id % 256, i.Ty % 256] ++ bytesLE 4 i.Pixels ++ bytesLE 8 i.Region ++
    bytesLE 2 i.Dropping ++ bytesLE 4 i.Scaling ++ [i.Ratio % 256] ++ i.Info)

/-- `Table.Bytes`: VMU header, science header, data, little-endian checksum;
an unsupported science header type is an error. -/
def Table.Bytes (t : Table) : Option (List Nat) :=
  match t.SDH with
  | .other => none
  | .v1 s => some (encodeVMU t.VMU ++ encodeSDHv1 s ++ t.Data ++ bytesLE 4 t.Sum)
  | .v2 s => some (encodeVMU t.VMU ++ encodeSDHv2 s ++ t.Data ++ bytesLE 4 t.Sum)

/-- `Image.Bytes`. -/
def Image.Bytes (i : Image) : Option (List Nat) :=
  match i.IDH with
  | .other => none
  | .v1 h => some (encodeVMU i.VMU ++ encodeIDHv1 h ++ i.Data ++ bytesLE 4 i.Sum)
  | .v2 h => some (encodeVMU i.VMU ++ encodeIDHv2 h ++ i.Data ++ bytesLE 4 i.Sum)

def HRPacket.Bytes : HRPacket → Option (List Nat)
  | .table t => t.Bytes
  | .image i => i.Bytes

def HRPacket.Sum : HRPacket → Nat
  | .table t => t.Sum
  | .image i => i.Sum

def HRPacket.Data : HRPacket → List Nat
  | .table t => t.Data
  | .image i => i.Data

/-- The checksum loop of `Valid`: a `uint32` accumulator summed over the
unsigned bytes, wrapping at each step. -/
def byteSumU32 (bs : List Nat) : Nat :=
  bs.foldl (fun a b => (a + b) % 4294967296) 0

/-- `Valid` (`src/hrd.go`): re-encode the product with `Bytes()`, sum all
but the trailing `binary.Size(uint32) = 4` bytes and compare with the stored
`Sum`.  An encoding failure yields `false`. -/
def Valid (p : HRPacket) : Bool :=
  match p.Bytes with
  | none => false
  | some bs => byteSumU32 (bs.take (bs.length - 4)) == p.Sum

/-- C4: for a product whose `Bytes()` succeeds, `Valid` holds exactly when
the wrapping u32 byte sum over all but the last four bytes equals the stored
checksum field. -/
theorem Valid_iff_checksum (p : HRPacket) (bs : List Nat)
    (h : p.Bytes = some bs) :
    Valid p = true ↔ byteSumU32 (bs.take (bs.length - 4)) = p.Sum := by
  unfold Valid
  rw [h]
  exact beq_iff_eq

/-- Witness for the checksum law at a concrete valid science product. -/
theorem Valid_iff_checksum_witness :
    HRPacket.Bytes (.table ⟨⟨3, 0, 0, 0, 0⟩, .v1 ⟨0⟩, [], 3⟩) =
      some [3, 0, 0, 0, 0, 0, 0, 0, 0, 0, 0, 0, 0, 0, 0, 0,
            0, 0, 0, 0, 0, 0, 0, 0, 3, 0, 0, 0] ∧
    (Valid (.table ⟨⟨3, 0, 0, 0, 0⟩, .v1 ⟨0⟩, [], 3⟩) = true ↔
      byteSumU32 (([3, 0, 0, 0, 0, 0, 0, 0, 0, 0, 0, 0, 0, 0, 0, 0,
                    0, 0, 0, 0, 0, 0, 0, 0, 3, 0, 0, 0] : List Nat).take
        (([3, 0, 0, 0, 0, 0, 0, 0, 0, 0, 0, 0, 0, 0, 0, 0,
           0, 0, 0, 0, 0, 0, 0, 0, 3, 0, 0, 0] : List Nat).length - 4)) =
        HRPacket.Sum (.table ⟨⟨3, 0, 0, 0, 0⟩, .v1 ⟨0⟩, [], 3⟩)) :=
  ⟨rfl, Valid_iff_checksum (.table ⟨⟨3, 0, 0, 0, 0⟩, .v1 ⟨0⟩, [], 3⟩) _ rfl⟩

/-! ### The v1 VMU decoder (`decodeVMUv1`, `src/hrd.go`) -/

/-- A little-endian unsigned field of `len` bytes at offset `off` of a
header slice (one `binary.Read LittleEndian` of the sequential decoder). -/
def leField (bs : List Nat) (off len : Nat) : Nat :=
  leU ((bs.drop off).take len)

/-- `decodeVMU` on the 16-byte header slice: channel u8, source u8, pad u16,
sequence u32, coarse u32, fine u16, pad u16 (it never reports an error). -/
def decodeVMU (bs : List Nat) : VMUHeader :=
  { Channel := leField bs 0 1
    Source := leField bs 1 1
    Sequence := leField bs 4 4
    Coarse := leField bs 8 4
    Fine := leField bs 12 2 }

/-- `decodeSDHv1` on the 8-byte slice: sequence u32 plus 4 pad bytes. -/
def decodeSDHv1 (bs : List Nat) : SDHv1 :=
  { Sequence := leField bs 0 4 }

/-- `decodeIDHv1` on the 72-byte slice. -/
def decodeIDHv1 (bs : List Nat) : IDHv1 :=
  { Sequence := leField bs 0 4
    Coarse := leField bs 4 4
    Fine := leField bs 8 2
    Part := leField bs 10 1
    Video := leField bs 11 1
    Ty := leField bs 12 1
    Rate := leField bs 13 4
    Pixels := leField bs 17 4
    Region := leField bs 21 8
    LineDrop := leField bs 29 1
    FrameDrop := leField bs 30 2
    Info := (bs.drop 40).take 32 }

/-- `decodeVMUv1`: decode the common header, branch on the channel, read the
version-1 sub-header and keep everything between the sub-header and the
trailing 4 checksum bytes as `Data`.  The product literals do not mention
`Sum`, so it stays at the Go zero value 0.  `none` covers both the error
returns (unknown channel) and the slice/`make` panics on short input
(`bs[:16]`, `bs[ix:ix+len]`, `make([]byte, len(bs)-ix-4)`). -/
def decodeVMUv1 (bs : List Nat) : Option HRPacket :=
  if bs.length < VMUHeaderLength then none
  else
    let v := decodeVMU (bs.take VMUHeaderLength)
    if v.Channel = Video1 ∨ v.Channel = Video2 then
      if bs.length < VMUHeaderLength + IDHeaderLengthV1 + 4 then none
      else
        let h := decodeIDHv1 ((bs.drop VMUHeaderLength).take IDHeaderLengthV1)
        some (.image
          { VMU := v, IDH := .v1 h
            Data := (bs.drop (VMUHeaderLength + IDHeaderLengthV1)).take
              (bs.length - (VMUHeaderLength + IDHeaderLengthV1) - 4)
            Sum := 0 })
    else if v.Channel = Science then
      if bs.length < VMUHeaderLength + SDHeaderLengthV1 + 4 then none
      else
        let h := decodeSDHv1 ((bs.drop VMUHeaderLength).take SDHeaderLengthV1)
        some (.table
          { VMU := v, SDH := .v1 h
            Data := (bs.drop (VMUHeaderLength + SDHeaderLengthV1)).take
              (bs.length - (VMUHeaderLength + SDHeaderLengthV1) - 4)
            Sum := 0 })
    else none

/-- C10: every product the v1 decoder returns has checksum field `Sum = 0`
(the trailing 4 wire bytes are dropped, never stored), its data is exactly
the slice between the sub-header and the trailing 4 bytes, its re-encoding
`Bytes()` succeeds, and therefore `Valid` holds exactly when the u32 byte
sum of `Bytes()` over all but the last 4 bytes is 0. -/
theorem decodeVMUv1_sum_zero (bs : List Nat) (p : HRPacket)
    (h : decodeVMUv1 bs = some p) :
    p.Sum = 0 ∧
    (∃ hl, (hl = VMUHeaderLength + IDHeaderLengthV1 ∨
            hl = VMUHeaderLength + SDHeaderLengthV1) ∧
      p.Data = (bs.drop hl).take (bs.length - hl - 4)) ∧
    ∃ pb, p.Bytes = some pb ∧
      (Valid p = true ↔ byteSumU32 (pb.take (pb.length - 4)) = 0) := by
  simp only [decodeVMUv1] at h
  split at h
  · exact Option.noConfusion h
  · split at h
    · split at h
      · exact Option.noConfusion h
      · rw [Option.some.injEq] at h
        subst h
        exact ⟨rfl, ⟨_, Or.inl rfl, rfl⟩, _, rfl, Valid_iff_checksum _ _ rfl⟩
    · split at h
      · split at h
        · exact Option.noConfusion h
        · rw [Option.some.injEq] at h
          subst h
          exact ⟨rfl, ⟨_, Or.inr rfl, rfl⟩, _, rfl, Valid_iff_checksum _ _ rfl⟩
      · exact Option.noConfusion h

/-- Witness: a concrete 28-byte v1 science packet decodes, and the decoded
product carries `Sum = 0`. -/
theorem decodeVMUv1_sum_zero_witness :
    decodeVMUv1 [3, 0, 0, 0, 0, 0, 0, 0, 0, 0, 0, 0, 0, 0, 0, 0,
                 1, 0, 0, 0, 0, 0, 0, 0, 9, 9, 9, 9] =
      some (.table ⟨⟨3, 0, 0, 0, 0⟩, .v1 ⟨1⟩, [], 0⟩) ∧
    (HRPacket.Sum (.table ⟨⟨3, 0, 0, 0, 0⟩, .v1 ⟨1⟩, [], 0⟩) = 0 ∧
      (∃ hl, (hl = VMUHeaderLength + IDHeaderLengthV1 ∨
              hl = VMUHeaderLength + SDHeaderLengthV1) ∧
        HRPacket.Data (.table ⟨⟨3, 0, 0, 0, 0⟩, .v1 ⟨1⟩, [], 0⟩) =
          (([3, 0, 0, 0, 0, 0, 0, 0, 0, 0, 0, 0, 0, 0, 0, 0,
             1, 0, 0, 0, 0, 0, 0, 0, 9, 9, 9, 9] : List Nat).drop hl).take
            (([3, 0, 0, 0, 0, 0, 0, 0, 0, 0, 0, 0, 0, 0, 0, 0,
               1, 0, 0, 0, 0, 0, 0, 0, 9, 9, 9, 9] : List Nat).length - hl - 4)) ∧
      ∃ pb, HRPacket.Bytes (.table ⟨⟨3, 0, 0, 0, 0⟩, .v1 ⟨1⟩, [], 0⟩) = some pb ∧
        (Valid (.table ⟨⟨3, 0, 0, 0, 0⟩, .v1 ⟨1⟩, [], 0⟩) = true ↔
          byteSumU32 (pb.take (pb.length - 4)) = 0)) :=
  ⟨by decide,
    decodeVMUv1_sum_zero
      [3, 0, 0, 0, 0, 0, 0, 0, 0, 0, 0, 0, 0, 0, 0, 0,
       1, 0, 0, 0, 0, 0, 0, 0, 9, 9, 9, 9]
      (.table ⟨⟨3, 0, 0, 0, 0⟩, .v1 ⟨1⟩, [], 0⟩) (by decide)⟩

/-! ### Time and text formatting helpers

Times are `Int` nanoseconds since the Unix epoch, all in UTC. -/

/-- `panda.UNIX = 1970-01-01 UTC` (the origin of the model). -/
def UNIX : Int := 0

/-- `panda.GPS = 1980-01-06 UTC` in nanoseconds since the Unix epoch. -/
def GPS : Int := 315964800000000000

/-- `VMUHeader.Timestamp`: `time.Unix(Coarse, 0) + Fine ms`. -/
def VMUHeader.Timestamp (v : VMUHeader) : Int :=
  (v.Coarse : Int) * 1000000000 + (v.Fine : Int) * 1000000

/-- `SDHv2.Timestamp`: `GPS.Add(Acquisition)`. -/
def SDHv2.Timestamp (s : SDHv2) : Int := GPS + s.Acquisition

/-- `AdjustTime(t, g)`: when `g` is false, shift by `GPS.Sub(UNIX)`. -/
def AdjustTime (t : Int) (g : Bool) : Int :=
  if g then t else t + (GPS - UNIX)

/-- `Table.Timestamp`: the SDHv2 generation time, otherwise the VMU header
timestamp. -/
def Table.Timestamp (t : Table) : Int :=
  match t.SDH with
  | .v2 s => s.Timestamp
  | _ => t.VMU.Timestamp

/-- Left-pad with zeros to width `w` (the digit part of Go `%0Nd` / `%0Nx`). -/
def pad0 (w : Nat) (s : String) : String :=
  String.mk (List.replicate (w - s.length) '0') ++ s

/-- Go `%0Nd` on a non-negative value. -/
def padNat (w n : Nat) : String := pad0 w (toString n)

/-- Go `%0Nd` on an `int`/`int64`: the minus sign occupies part of the
width and the zeros go after it. -/
def padInt (w : Nat) (v : Int) : String :=
  if v < 0 then "-" ++ pad0 (w - 1) (toString (-v).toNat) else pad0 w (toString v.toNat)

/-- One lowercase hex digit. -/
def hexDigit (n : Nat) : Char :=
  if n < 10 then Char.ofNat (48 + n) else Char.ofNat (87 + n)

/-- Hex digits of `n` (empty for 0), most significant first; fuelled. -/
def natHexAux : Nat → Nat → List Char
  | 0, _ => []
  | fuel + 1, n => if n = 0 then [] else natHexAux fuel (n / 16) ++ [hexDigit (n % 16)]

/-- Go `%x` of a non-negative value. -/
def natHex (n : Nat) : String :=
  if n = 0 then "0" else String.mk (natHexAux n n)

/-- Days since 1970-01-01 of the civil day containing the instant. -/
def dayOfUnix (s : Int) : Int := (s / 86400 : Int)

/-- Seconds into the civil day. -/
def secsOfDay (s : Int) : Nat := ((s % 86400 : Int)).toNat

/-- Proleptic-Gregorian (year, month, day) of a day count since 1970-01-01
(the standard civil-from-days algorithm used by every calendar library,
matching Go `time.Time.Date` in UTC). -/
def civilFromDays (z0 : Int) : Int × Nat × Nat :=
  let z := z0 + 719468
  let era := (z / 146097 : Int)
  let doe := (z - era * 146097).toNat
  let yoe := (doe - doe / 1460 + doe / 36524 - doe / 146096) / 365
  let doy := doe - (365 * yoe + yoe / 4 - yoe / 100)
  let mp := (5 * doy + 2) / 153
  let d := doy - (153 * mp + 2) / 5 + 1
  let m := if mp < 10 then mp + 3 else mp - 9
  let y := era * 400 + yoe + (if m ≤ 2 then 1 else 0)
  (y, m, d)

/-- Go `Format("20060102_150405")` in UTC on whole nanoseconds. -/
def formatTimeFile (ns : Int) : String :=
  let s := (ns / 1000000000 : Int)
  let c := civilFromDays (dayOfUnix s)
  let sod := secsOfDay s
  padInt 4 c.1 ++ padNat 2 c.2.1 ++ padNat 2 c.2.2 ++ "_" ++
    padNat 2 (sod / 3600) ++ padNat 2 (sod % 3600 / 60) ++ padNat 2 (sod % 60)

/-- `bytes.Trim(bs, "\\x00")`: strip zero bytes from both ends. -/
def trimNull (bs : List Nat) : List Nat :=
  ((bs.dropWhile (fun b => b == 0)).reverse.dropWhile (fun b => b == 0)).reverse

/-- `strings.Replace(string(bs), " ", "-", -1)` on (ASCII) UPI bytes. -/
def upiString (bs : List Nat) : String :=
  String.mk (bs.map (fun b => if b == 32 then '-' else Char.ofNat b))

/-- `int64(delta.Minutes())`: the float minute count truncated toward zero;
on the nanosecond representation this is t-division by 6e10 (exact whenever
the 53-bit float mantissa does not round across an integer boundary). -/
def offsetMinutes (delta : Int) : Int := Int.tdiv delta 60000000000

/-- `Table.Filename` (`src/hrd.go`): id, UPI, channel, sequence, formatted
generation time, minute offset, and the fixed extension `dat` with `.bad`
appended when the checksum comparison fails. -/
def Table.Filename (t : Table) : String :=
  let idseq :=
    match t.SDH with
    | .other => (t.VMU.Channel, 0, "SCIENCE", (0 : Int))
    | .v1 s => (t.VMU.Channel, s.Sequence, "SCIENCE", (1000000000 : Int))
    | .v2 s => (s.Id, s.Originator,
        (if trimNull s.Info ≠ [] then upiString (trimNull s.Info) else "SCIENCE"),
        AdjustTime t.VMU.Timestamp false - s.Timestamp)
  let offset := offsetMinutes idseq.2.2.2
  let n := formatTimeFile t.Timestamp
  let ext := if Valid (.table t) then "dat" else "dat" ++ ".bad"
  pad0 4 (natHex idseq.1) ++ "_" ++ idseq.2.2.1 ++ "_" ++ toString t.VMU.Channel ++ "_" ++
    padNat 6 idseq.2.1 ++ "_" ++ n ++ "_" ++ padInt 9 offset ++ "." ++ ext

/-- `SDHv2.Format`: the science-id to format-name map.  Note `LCP` is NOT in
this switch (unlike in `FCC`), so it falls to the `raw` default. -/
def SDHv2.Format (s : SDHv2) : String :=
  if s.Id = Alv1 ∨ s.Id = Alv2 then "corr"
  else if s.Id = LRSD then "mma"
  else if s.Id = RUBUnit ∨ s.Id = SMDUnit then "sync"
  else "raw"

/-- C5 (amended): a science product's filename always carries the fixed
extension `dat` — the science id never influences it — and `.bad` is
appended exactly when the checksum comparison fails. -/
theorem Table_Filename_ext (t : Table) :
    ∃ pre, Table.Filename t =
      pre ++ (if Valid (.table t) then ".dat" else ".dat.bad") := by
  simp only [Table.Filename]
  cases hv : Valid (.table t)
  · exact ⟨_, by rw [String.append_assoc]; rfl⟩
  · exact ⟨_, by rw [String.append_assoc]; rfl⟩

/-- C5 (counterexample): a valid science table with id `LRSD = 0x51` — whose
format name per `SDHv2.Format` is `mma` — still gets extension `dat`. -/
theorem Table_Filename_ignores_science_id :
    SDHv2.Format ⟨0, 0, 7, 1198800000000000000, 0, 0x51, List.replicate 32 0⟩ = "mma" ∧
    Valid (.table ⟨⟨3, 0, 0, 1198800000, 0⟩,
      .v2 ⟨0, 0, 7, 1198800000000000000, 0, 0x51, List.replicate 32 0⟩, [], 1306⟩) = true ∧
    Table.Filename ⟨⟨3, 0, 0, 1198800000, 0⟩,
      .v2 ⟨0, 0, 7, 1198800000000000000, 0, 0x51, List.replicate 32 0⟩, [], 1306⟩ =
      "0051_SCIENCE_3_000007_20180101_000000_000000000" ++ ".dat" ∧
    (".dat" : String) ≠ ".mma" := by
  refine ⟨by decide, by decide, by decide, by decide⟩

/-! ### Path builder and HRDP store (`src/unnamed/part_002`) -/

/-- Instance ids (`src/hadock/proto.go`). -/
def TEST : Nat := 0
def SIM1 : Nat := 1
def SIM2 : Nat := 2
def OPS : Nat := 255

def HRDPHeaderLength : Nat := 14
def HRDLSyncLength : Nat := 8

/-- `Table.Origin`: `%02x` of the SDHv2 id, else of the VMU source. -/
def Table.Origin (t : Table) : String :=
  match t.SDH with
  | .v2 s => pad0 2 (natHex s.Id)
  | _ => pad0 2 (natHex t.VMU.Source)

/-- `Image.Origin`: `%02x` of the IDHv1 video id / IDHv2 id, else of the VMU
source. -/
def Image.Origin (i : Image) : String :=
  match i.IDH with
  | .v1 h => pad0 2 (natHex h.Video)
  | .v2 h => pad0 2 (natHex h.Id)
  | .other => pad0 2 (natHex i.VMU.Source)

def HRPacket.Origin : HRPacket → String
  | .table t => t.Origin
  | .image i => i.Origin

/-- The VMU common header of either product kind (the type switch at the top
of `hrdpstore.Store`). -/
def vmuOf : HRPacket → VMUHeader
  | .table t => t.VMU
  | .image i => i.VMU

def decDigit (c : Char) : Option Nat :=
  if 48 ≤ c.toNat ∧ c.toNat ≤ 57 then some (c.toNat - 48) else none

def octDigit (c : Char) : Option Nat :=
  if 48 ≤ c.toNat ∧ c.toNat ≤ 55 then some (c.toNat - 48) else none

def parseDigitsWith (f : Char → Option Nat) (base : Nat) (cs : List Char) : Option Nat :=
  cs.foldl
    (fun acc c =>
      match acc, f c with
      | some a, some d => some (a * base + d)
      | _, _ => none) (some 0)

/-- `strconv.ParseUint(s, 0, 8)` as applied to a `%02x`-formatted origin:
base 0 selects octal on a leading `0` (the `0x`/`0o`/`0b` prefixes cannot
arise from two hex digits), decimal otherwise; a syntax error yields 0 and a
range error the max uint8 value 255.  The caller ignores the error either
way. -/
def goParseUint8Base0 (s : String) : Nat :=
  match s.data with
  | [] => 0
  | c :: rest =>
    if c = '0' ∧ rest ≠ [] then
      match parseDigitsWith octDigit 8 rest with
      | none => 0
      | some v => if 256 ≤ v then 255 else v
    else
      match parseDigitsWith decDigit 10 s.data with
      | none => 0
      | some v => if 256 ≤ v then 255 else v

/-- `AdjustGenerationTime(s)`: `UNIX + (315964819000 + s*1000) ms`, in
nanoseconds. -/
def AdjustGenerationTime (s : Int) : Int :=
  (315964819000 + s * 1000) * 1000000

/-- Seconds between the zero `time.Time` (Jan 1, year 1, UTC) and the Unix
epoch; `time.Truncate` rounds down to a multiple of `d` counted from the
zero time. -/
def zeroTimeOffset : Int := 62135596800

/-- `time.Time.Truncate(d)` on nanoseconds (identity for `d ≤ 0`). -/
def goTruncate (d t : Int) : Int :=
  if d ≤ 0 then t else t - (t + zeroTimeOffset * 1000000000) % d

/-- Minute-of-hour of a whole-second Unix timestamp (UTC). -/
def minuteOf (s : Int) : Int := (s / 60) % 60

/-- Hour-of-day. -/
def hourOf (s : Int) : Nat := (((s % 86400 : Int)).toNat) / 3600

/-- `time.Time.YearDay` (1-based ordinal date), via the civil calendar. -/
def daysFromCivil (y : Int) (m d : Nat) : Int :=
  let y2 := if m ≤ 2 then y - 1 else y
  let era := (y2 / 400 : Int)
  let yoe := (y2 - era * 400).toNat
  let mp := if 3 ≤ m then m - 3 else m + 9
  let doy := (153 * mp + 2) / 5 + d - 1
  let doe := yoe * 365 + yoe / 4 - yoe / 100 + doy
  era * 146097 + (doe : Int) - 719468

def yearOf (s : Int) : Int := (civilFromDays (dayOfUnix s)).1

def yearDayOf (s : Int) : Nat :=
  (dayOfUnix s - daysFromCivil (yearOf s) 1 1 + 1).toNat

/-- `joinPathTime(base, t, g)`: re-adjust the timestamp with
`AdjustGenerationTime(t.Unix())`, append `YYYY/DDD/HH`, and when `g > 0`
append the minute of the adjusted time truncated to `g` SECONDS
(`t.Truncate(time.Second * time.Duration(g))`), zero-padded to 2.
`path.Join` on clean components is plain `/`-concatenation. -/
def joinPathTime (base : String) (t : Int) (g : Int) : String :=
  let t1 := AdjustGenerationTime ((t / 1000000000 : Int))
  let s := (t1 / 1000000000 : Int)
  let base1 := base ++ "/" ++ padInt 4 (yearOf s) ++ "/" ++ padNat 3 (yearDayOf s) ++
    "/" ++ padNat 2 (hourOf s)
  if 0 < g then
    base1 ++ "/" ++ padNat 2 (minuteOf (goTruncate (g * 1000000000) t1 / 1000000000)).toNat
  else base1

/-- The instance sub-directory of `joinPath`/`joinPathHRDP`. -/
def instanceDir (base : String) (i : Nat) : String :=
  if i = TEST then base ++ "/TEST"
  else if i = SIM1 ∨ i = SIM2 then base ++ "/SIM" ++ toString i
  else if i = OPS then base ++ "/OPS"
  else base ++ "/DATA"

/-- `joinPathHRDP`: instance directory plus the time directories with
granularity 0 (no minute component). -/
def joinPathHRDP (base : String) (t : Int) (i : Nat) : String :=
  joinPathTime (instanceDir base i) t 0

/-- One HRDP wrapper record as written by `hrdpstore.Store`: total length
(u32 LE, header constants 14+8 plus the product size), a zero u16, payload
id, origin byte, generation Unix seconds (int64 LE), a zero byte, current
Unix seconds (int64 LE), a zero byte, the sync word and the product length
(both u32 BE), then the product bytes. -/
def hrdpRecord (payload o : Nat) (genSec nowSec : Int) (bs : List Nat) : List Nat :=
  bytesLE 4 (HRDPHeaderLength + HRDLSyncLength + bs.length) ++ bytesLE 2 0 ++
    [payload % 256, o % 256] ++ int64Bytes genSec ++ [0] ++ int64Bytes nowSec ++ [0] ++
    bytesBE 4 Preamble ++ bytesBE 4 bs.length ++ bs

/-- The persistent fields of `hrdpstore` (its `syncword` is always the
preamble constant). -/
structure HrdpStore where
  datadir : String
  payload : Nat
  buf : List Nat
  deriving DecidableEq, Repr

/-- A file written by a flush: directory, name and contents. -/
structure FileWrite where
  dir : String
  name : String
  contents : List Nat
  deriving DecidableEq, Repr

/-- Outcome of one `hrdpstore.Store` call. -/
structure HrdpStoreResult where
  buf : List Nat
  flushed : Option FileWrite
  err : Bool
  deriving DecidableEq, Repr

/-- `hrdpstore.Store(i, p)` at wall-clock `now`: truncate the product's VMU
generation time to 5 minutes; when the truncated minute is a multiple of 5
(`t.Minute()%5 == 0`), write the accumulated buffer to
`rt_<MM-5>_<MM-1>.dat` under the HRDP path of the truncated time and reset
the buffer; then append the wrapper record for the current product (a
`Bytes()` failure returns early with the error).  Filesystem writes are
assumed to succeed. -/
def hrdpstoreStore (h : HrdpStore) (i : Nat) (p : HRPacket) (nowSec : Int) :
    HrdpStoreResult :=
  let o := goParseUint8Base0 p.Origin
  let gen := (vmuOf p).Timestamp
  let tr := goTruncate 300000000000 gen
  let mm := minuteOf ((tr / 1000000000 : Int))
  let st : List Nat × Option FileWrite :=
    if (mm % 5 : Int) = 0 then
      ([], some ⟨joinPathHRDP h.datadir tr i,
        "rt_" ++ padInt 2 (mm - 5) ++ "_" ++ padInt 2 (mm - 1) ++ ".dat", h.buf⟩)
    else (h.buf, none)
  match p.Bytes with
  | none => { buf := st.1, flushed := st.2, err := true }
  | some bs =>
    { buf := st.1 ++ hrdpRecord h.payload o ((gen / 1000000000 : Int)) nowSec bs,
      flushed := st.2, err := false }

theorem trunc300_minute_mod5 (t : Int) :
    minuteOf (goTruncate 300000000000 t / 1000000000) % 5 = 0 := by
  have hk : ∃ k, goTruncate 300000000000 t = 300000000000 * k := by
    refine ⟨(t + zeroTimeOffset * 1000000000) / 300000000000 - 207118656, ?_⟩
    unfold goTruncate zeroTimeOffset
    norm_num
    omega
  obtain ⟨k, hk⟩ := hk
  rw [hk]
  unfold minuteOf
  rw [show (300000000000 : Int) * k = 1000000000 * (300 * k) by ring,
    Int.mul_ediv_cancel_left _ (by norm_num),
    show (300 : Int) * k = 60 * (5 * k) by ring,
    Int.mul_ediv_cancel_left _ (by norm_num)]
  omega

/-- C1 (amended): `hrdpstore.Store` flushes on EVERY call.  The flush guard
compares `gen.Truncate(5*time.Minute).Minute() % 5` with 0, but a timestamp
truncated to a 5-minute multiple always has a minute that is a multiple of
5, so the condition is a tautology: no last-window comparison and no
buffer-emptiness check exist.  Every call writes the previously accumulated
buffer — possibly empty — to `rt_<MM-5>_<MM-1>.dat` (MM the truncated
minute) under the HRDP path of the truncated time, resets the buffer, and
then appends the record of the current product (nothing, if its `Bytes()`
fails). -/
theorem hrdpstore_Store_flushes_always (h : HrdpStore) (i : Nat) (p : HRPacket)
    (now : Int) :
    (hrdpstoreStore h i p now).flushed =
      some ⟨joinPathHRDP h.datadir (goTruncate 300000000000 (vmuOf p).Timestamp) i,
        "rt_" ++ padInt 2 (minuteOf (goTruncate 300000000000 (vmuOf p).Timestamp / 1000000000) - 5) ++
          "_" ++ padInt 2 (minuteOf (goTruncate 300000000000 (vmuOf p).Timestamp / 1000000000) - 1) ++
          ".dat", h.buf⟩ ∧
    (hrdpstoreStore h i p now).buf =
      (match p.Bytes with
        | none => []
        | some bs => hrdpRecord h.payload (goParseUint8Base0 p.Origin)
            ((vmuOf p).Timestamp / 1000000000) now bs) := by
  simp only [hrdpstoreStore]
  rw [if_pos (trunc300_minute_mod5 (vmuOf p).Timestamp)]
  cases hb : p.Bytes with
  | none => exact ⟨rfl, rfl⟩
  | some bs => exact ⟨rfl, rfl⟩

/-- C1 (counterexample): a store call with an EMPTY buffer and a generation
time of 00:07:00 (inside a window, not on a boundary) still flushes,
writing an empty `rt_00_04.dat` — the claim's three flush conditions
(boundary, new window, non-empty buffer) are not checked. -/
theorem hrdpstore_Store_flush_empty_buffer :
    (hrdpstoreStore ⟨"/data", 2, []⟩ 255
        (.table ⟨⟨3, 0, 0, 420, 0⟩, .v1 ⟨1⟩, [], 0⟩) 0).flushed =
      some ⟨"/data/OPS/1980/006/00", "rt_00_04.dat", []⟩ ∧
    minuteOf ((VMUHeader.Timestamp ⟨3, 0, 0, 420, 0⟩) / 1000000000) = 7 := by
  refine ⟨by decide, by decide⟩

/-- C6 (amended): for `g > 0` the path builder appends the minute of the
adjusted timestamp truncated to `g` SECONDS (not minutes), zero-padded to 2;
for `g ≤ 0` (in particular `g = 0`) no minute directory is appended.  In
particular for `g = 5` the truncation is sub-minute, so the appended value
is simply the raw minute-of-hour — not `floor(minute/5)*5` as the spec's
formula would give. -/
theorem joinPathTime_minute (base : String) (t : Int) (g : Int) (hg : 0 < g) :
    joinPathTime base t g =
      joinPathTime base t 0 ++ "/" ++
        padNat 2 (minuteOf (goTruncate (g * 1000000000)
          (AdjustGenerationTime (t / 1000000000)) / 1000000000)).toNat ∧
    (g = 5 →
      minuteOf (goTruncate (5 * 1000000000)
          (AdjustGenerationTime (t / 1000000000)) / 1000000000) =
        minuteOf (AdjustGenerationTime (t / 1000000000) / 1000000000)) := by
  constructor
  · simp only [joinPathTime]
    rw [if_pos hg, if_neg (lt_irrefl 0)]
  · intro hg5
    have hS : AdjustGenerationTime (t / 1000000000) =
        1000000000 * (315964819 + t / 1000000000) := by
      unfold AdjustGenerationTime
      ring
    rw [hS]
    set S : Int := 315964819 + t / 1000000000 with hSdef
    have h1 : goTruncate (5 * 1000000000) (1000000000 * S) =
        1000000000 * (S - (S + zeroTimeOffset) % 5) := by
      unfold goTruncate
      rw [if_neg (by norm_num)]
      rw [show (1000000000 : Int) * S + zeroTimeOffset * 1000000000 =
            1000000000 * (S + zeroTimeOffset) by ring,
          show (5 : Int) * 1000000000 = 1000000000 * 5 by norm_num,
          Int.mul_emod_mul_of_pos _ _ (by norm_num : (0 : Int) < 1000000000)]
      ring
    rw [h1, Int.mul_ediv_cancel_left _ (by norm_num : (1000000000 : Int) ≠ 0),
        Int.mul_ediv_cancel_left _ (by norm_num : (1000000000 : Int) ≠ 0)]
    unfold minuteOf zeroTimeOffset
    omega

/-- Witness for the amended minute rule at `g = 5` on a concrete adjusted
timestamp with minute 7. -/
theorem joinPathTime_minute_witness :
    (0 : Int) < 5 ∧
    (joinPathTime "/data" 1198800401000000000 5 =
        joinPathTime "/data" 1198800401000000000 0 ++ "/" ++
          padNat 2 (minuteOf (goTruncate (5 * 1000000000)
            (AdjustGenerationTime (1198800401000000000 / 1000000000)) / 1000000000)).toNat ∧
      ((5 : Int) = 5 →
        minuteOf (goTruncate (5 * 1000000000)
            (AdjustGenerationTime (1198800401000000000 / 1000000000)) / 1000000000) =
          minuteOf (AdjustGenerationTime (1198800401000000000 / 1000000000) / 1000000000))) :=
  ⟨by decide, joinPathTime_minute "/data" 1198800401000000000 5 (by decide)⟩

/-- C6 (counterexample): with granularity 5 and an adjusted timestamp at
minute 7, the appended minute directory is `07`, not the
`floor(7/5)*5 = 05` the claim requires. -/
theorem joinPathTime_not_bucketed :
    joinPathTime "/data" 1198800401000000000 5 = "/data/2018/001/00/07" ∧
    ((7 : Nat) / 5) * 5 = 5 ∧
    ("/data/2018/001/00/07" : String) ≠ "/data/2018/001/00/05" := by
  refine ⟨by decide, by decide, by decide⟩

/-! ### The notifier pool (`Pool.notify`, `src/hadock/notifier.go`) -/

/-- The cache key of `Pool.notify`: `(p.IsRealtime(), p.Origin(),
p.Instance)`. -/
structure NKey where
  Realtime : Bool
  Origin : String
  Instance : Int
  deriving DecidableEq, Repr

/-- The `HRPacket` interface as seen by the pool: the results of the methods
it invokes.  `GeneratedNS` is the optional `Generated() time.Time` interface
assertion; `UPI` the `extractUserInfo` result. -/
structure NPacket where
  Sequence : Nat
  TimestampNS : Int
  GeneratedNS : Option Int
  Stream : Nat
  Filename : String
  Realtime : Bool
  Origin : String
  UPI : String
  deriving DecidableEq, Repr

/-- `hadock.Item`: an instance id plus the packet. -/
structure Item where
  Instance : Int
  P : NPacket
  deriving DecidableEq, Repr

def keyOf (it : Item) : NKey := ⟨it.P.Realtime, it.P.Origin, it.Instance⟩

/-- `hadock.Message` (numeric times in Unix seconds, `Elapsed` in
nanoseconds as a `time.Duration`). -/
structure Message where
  Origin : String
  Sequence : Nat
  Instance : Int
  Channel : Nat
  Realtime : Bool
  Count : Nat
  Elapsed : Int
  Generated : Int
  Acquired : Int
  Reference : String
  UPI : String
  deriving DecidableEq, Repr

/-- The key fields a Message carries. -/
def msgKey (m : Message) : NKey := ⟨m.Realtime, m.Origin, m.Instance⟩

/-- `cache[k] = append(cache[k], p.HRPacket)`: extend the batch of the
item's key, creating it on first arrival. -/
def addItem : List (NKey × List NPacket) → Item → List (NKey × List NPacket)
  | [], it => [(keyOf it, [it.P])]
  | (k, ps) :: rest, it =>
    if k = keyOf it then (k, ps ++ [it.P]) :: rest
    else (k, ps) :: addItem rest it

/-- The cache contents after one tick interval's arrivals. -/
def accumulate (items : List Item) : List (NKey × List NPacket) :=
  items.foldl addItem []

/-- The batch stored under key `k`. -/
def lookupKey : List (NKey × List NPacket) → NKey → List NPacket
  | [], _ => []
  | (k2, ps) :: rest, k => if k2 = k then ps else lookupKey rest k

/-- The packets of the items with key `k`, in arrival order. -/
def batchOf (items : List Item) (k : NKey) : List NPacket :=
  (items.filter (fun it => keyOf it = k)).map Item.P

/-- The per-batch body of the tick handler: sort by sequence, then build the
Message from the first and last packets of the sorted batch.  (`sort.Slice`
is not stable; for distinct sequence numbers — the only case the claims pin
down — the stable `insertionSort` produces the same list.) -/
def buildMessage (k : NKey) (ps : List NPacket) : Message :=
  let sorted := ps.insertionSort (fun a b => a.Sequence ≤ b.Sequence)
  match sorted with
  | [] => ⟨k.Origin, 0, k.Instance, 0, k.Realtime, 0, 0, 0, 0, "", ""⟩
  | f :: rest =>
    let l := rest.getLastD f
    { Origin := k.Origin
      Instance := k.Instance
      Realtime := k.Realtime
      Count := ps.length
      Sequence := f.Sequence
      Channel := f.Stream
      Elapsed := l.TimestampNS - f.TimestampNS
      Generated := (f.GeneratedNS.getD f.TimestampNS) / 1000000000
      Acquired := f.TimestampNS / 1000000000
      Reference := f.Filename
      UPI := f.UPI }

/-- One timer tick: every non-empty batch yields one Message and is deleted
from the cache (empty batches are skipped). -/
def notifyTick (cache : List (NKey × List NPacket)) : List Message :=
  cache.filterMap (fun e => if e.2.isEmpty then none else some (buildMessage e.1 e.2))

theorem lookupKey_addItem (cache : List (NKey × List NPacket)) (it : Item) (k : NKey) :
    lookupKey (addItem cache it) k =
      if keyOf it = k then lookupKey cache k ++ [it.P] else lookupKey cache k := by
  induction cache with
  | nil =>
    by_cases h : keyOf it = k <;> simp [addItem, lookupKey, h]
  | cons e rest ih =>
    obtain ⟨k2, ps⟩ := e
    by_cases h2 : k2 = keyOf it
    · subst h2
      by_cases hk : keyOf it = k <;> simp [addItem, lookupKey, hk]
    · by_cases hk : k2 = k
      · subst hk
        have hik : ¬ keyOf it = k2 := fun hh => h2 (Eq.symm hh)
        simp [addItem, lookupKey, h2, hik]
      · simp [addItem, lookupKey, h2, hk, ih]

theorem lookupKey_foldl (items : List Item) (cache : List (NKey × List NPacket)) (k : NKey) :
    lookupKey (items.foldl addItem cache) k = lookupKey cache k ++ batchOf items k := by
  induction items generalizing cache with
  | nil => simp [batchOf]
  | cons it rest ih =>
    rw [List.foldl_cons, ih, lookupKey_addItem]
    by_cases h : keyOf it = k
    · simp [batchOf, h]
    · simp [batchOf, h]

/-- The cache batch for `k` is exactly the key-`k` items in arrival order. -/
theorem lookupKey_accumulate (items : List Item) (k : NKey) :
    lookupKey (accumulate items) k = batchOf items k := by
  have h := lookupKey_foldl items [] k
  simpa [accumulate, lookupKey] using h

theorem msgKey_buildMessage (k : NKey) (ps : List NPacket) :
    msgKey (buildMessage k ps) = k := by
  simp only [buildMessage]
  cases List.insertionSort (fun a b => a.Sequence ≤ b.Sequence) ps <;> rfl

def cacheKeys (cache : List (NKey × List NPacket)) : List NKey := cache.map Prod.fst

theorem cacheKeys_addItem (cache : List (NKey × List NPacket)) (it : Item) :
    cacheKeys (addItem cache it) =
      if keyOf it ∈ cacheKeys cache then cacheKeys cache
      else cacheKeys cache ++ [keyOf it] := by
  induction cache with
  | nil => simp [addItem, cacheKeys]
  | cons e rest ih =>
    obtain ⟨k2, ps⟩ := e
    by_cases h2 : k2 = keyOf it
    · subst h2
      simp [addItem, cacheKeys]
    · have h2x : ¬ keyOf it = k2 := fun hh => h2 (Eq.symm hh)
      simp only [addItem, if_neg h2, cacheKeys, List.map_cons] at ih ⊢
      rw [ih]
      by_cases hm : keyOf it ∈ List.map Prod.fst rest
      · simp [hm, h2x, List.mem_cons]
      · simp [hm, h2x, List.mem_cons]

theorem nodup_cacheKeys_addItem (cache : List (NKey × List NPacket)) (it : Item)
    (h : (cacheKeys cache).Nodup) : (cacheKeys (addItem cache it)).Nodup := by
  rw [cacheKeys_addItem]
  by_cases hm : keyOf it ∈ cacheKeys cache
  · simpa [hm] using h
  · simp only [hm, if_neg, if_false]
    rw [List.nodup_append]
    exact ⟨h, List.nodup_singleton _, by simpa using hm⟩

theorem nodup_cacheKeys_accumulate (items : List Item) :
    (cacheKeys (accumulate items)).Nodup := by
  have h : ∀ cache, (cacheKeys cache).Nodup →
      (cacheKeys (items.foldl addItem cache)).Nodup := by
    induction items with
    | nil => exact fun cache hc => hc
    | cons it rest ih =>
      intro cache hc
      exact ih _ (nodup_cacheKeys_addItem cache it hc)
  exact h [] (by simp [cacheKeys])

theorem addItem_nonempty (cache : List (NKey × List NPacket)) (it : Item)
    (h : ∀ e ∈ cache, e.2 ≠ []) : ∀ e ∈ addItem cache it, e.2 ≠ [] := by
  induction cache with
  | nil => simp [addItem]
  | cons e2 rest ih =>
    obtain ⟨k2, ps⟩ := e2
    intro e he
    by_cases h2 : k2 = keyOf it
    · rw [addItem, if_pos h2] at he
      rcases List.mem_cons.mp he with he1 | he2
      · subst he1; simp
      · exact h e (List.mem_cons_of_mem _ he2)
    · rw [addItem, if_neg h2] at he
      rcases List.mem_cons.mp he with he1 | he2
      · subst he1; exact h (k2, ps) (List.mem_cons_self _ _)
      · exact ih (fun e2 he2x => h e2 (List.mem_cons_of_mem _ he2x)) e he2

theorem accumulate_nonempty (items : List Item) :
    ∀ e ∈ accumulate items, e.2 ≠ [] := by
  have h : ∀ cache, (∀ e ∈ cache, e.2 ≠ []) →
      ∀ e ∈ items.foldl addItem cache, e.2 ≠ [] := by
    induction items with
    | nil => exact fun cache hc => hc
    | cons it rest ih =>
      intro cache hc
      exact ih _ (addItem_nonempty cache it hc)
  exact h [] (by simp)

theorem mem_of_lookupKey (cache : List (NKey × List NPacket)) (k : NKey)
    (h : lookupKey cache k ≠ []) : (k, lookupKey cache k) ∈ cache := by
  induction cache with
  | nil => exact absurd rfl h
  | cons e rest ih =>
    obtain ⟨k2, ps⟩ := e
    by_cases hk : k2 = k
    · subst hk
      rw [lookupKey, if_pos rfl] at h ⊢
      exact List.mem_cons_self _ _
    · rw [lookupKey, if_neg hk] at h ⊢
      exact List.mem_cons_of_mem _ (ih h)

theorem lookupKey_of_mem (cache : List (NKey × List NPacket)) (k : NKey)
    (ps : List NPacket) (hnd : (cacheKeys cache).Nodup) (hm : (k, ps) ∈ cache) :
    ps = lookupKey cache k := by
  induction cache with
  | nil => exact absurd hm (List.not_mem_nil _)
  | cons e rest ih =>
    obtain ⟨k2, qs⟩ := e
    rcases List.mem_cons.mp hm with he | he
    · obtain ⟨hk, hq⟩ := Prod.mk.injEq .. ▸ he
      subst hk
      rw [lookupKey, if_pos rfl]
      exact hq.symm ▸ rfl
    · have hk2 : k2 ≠ k := by
        rintro rfl
        have : k2 ∈ cacheKeys rest :=
          List.mem_map.mpr ⟨(k2, ps), he, rfl⟩
        exact (List.nodup_cons.mp hnd).1 this
      rw [lookupKey, if_neg hk2]
      exact ih (List.nodup_cons.mp hnd).2 he

theorem mem_notifyTick (cache : List (NKey × List NPacket)) (k : NKey)
    (ps : List NPacket) (hm : (k, ps) ∈ cache) (hne : ps ≠ []) :
    buildMessage k ps ∈ notifyTick cache := by
  unfold notifyTick
  refine List.mem_filterMap.mpr ⟨(k, ps), hm, ?_⟩
  simp [List.isEmpty_iff, hne]

theorem notifyTick_mem_inv (cache : List (NKey × List NPacket)) (m : Message)
    (hm : m ∈ notifyTick cache) :
    ∃ e ∈ cache, e.2 ≠ [] ∧ m = buildMessage e.1 e.2 := by
  unfold notifyTick at hm
  obtain ⟨e, he, hmap⟩ := List.mem_filterMap.mp hm
  by_cases hE : e.2.isEmpty
  · rw [if_pos hE] at hmap
    exact absurd hmap (by simp)
  · rw [if_neg hE] at hmap
    exact ⟨e, he, by simpa [List.isEmpty_iff] using hE, (Option.some.inj hmap).symm⟩

theorem map_msgKey_notifyTick (cache : List (NKey × List NPacket)) :
    (notifyTick cache).map msgKey =
      (cache.filter (fun e => !e.2.isEmpty)).map Prod.fst := by
  induction cache with
  | nil => rfl
  | cons e rest ih =>
    obtain ⟨k2, ps⟩ := e
    by_cases hps : ps = []
    · subst hps
      simpa [notifyTick, List.filterMap_cons, List.filter_cons] using ih
    · have hE : ps.isEmpty = false := by simpa [List.isEmpty_iff] using hps
      simp [notifyTick, List.filterMap_cons, List.filter_cons, hE, hps,
        msgKey_buildMessage] at ih ⊢
      exact ih

theorem nodup_msgKeys (cache : List (NKey × List NPacket))
    (h : (cacheKeys cache).Nodup) : ((notifyTick cache).map msgKey).Nodup := by
  rw [map_msgKey_notifyTick]
  exact List.Nodup.sublist (List.Sublist.map Prod.fst (List.filter_sublist cache)) h

theorem getLastD_mem {α : Type} (f : α) (rest : List α) :
    rest.getLastD f ∈ f :: rest := by
  induction rest generalizing f with
  | nil => simp
  | cons b t ih =>
    rw [List.getLastD_cons]
    exact List.mem_cons_of_mem _ (ih b)

theorem sorted_seq_getLastD (f : NPacket) (rest : List NPacket)
    (hs : List.Sorted (fun a b => a.Sequence ≤ b.Sequence) (f :: rest)) :
    ∀ q ∈ f :: rest, q.Sequence ≤ (rest.getLastD f).Sequence := by
  induction rest generalizing f with
  | nil =>
    intro q hq
    simp at hq
    subst hq
    simp
  | cons b t ih =>
    intro q hq
    rw [List.getLastD_cons]
    rcases List.mem_cons.mp hq with hq1 | hq2
    · subst hq1
      have h1 : q.Sequence ≤ b.Sequence :=
        List.rel_of_sorted_cons hs b (List.mem_cons_self _ _)
      have h2 : b.Sequence ≤ (t.getLastD b).Sequence :=
        ih b hs.of_cons b (List.mem_cons_self _ _)
      exact le_trans h1 h2
    · exact ih b hs.of_cons q hq2

theorem buildMessage_spec (k : NKey) (ps : List NPacket) (h : ps ≠ []) :
    ∃ pmin pmax, pmin ∈ ps ∧ pmax ∈ ps ∧
      (∀ q ∈ ps, pmin.Sequence ≤ q.Sequence ∧ q.Sequence ≤ pmax.Sequence) ∧
      buildMessage k ps =
        ⟨k.Origin, pmin.Sequence, k.Instance, pmin.Stream, k.Realtime, ps.length,
          pmax.TimestampNS - pmin.TimestampNS,
          (pmin.GeneratedNS.getD pmin.TimestampNS) / 1000000000,
          pmin.TimestampNS / 1000000000, pmin.Filename, pmin.UPI⟩ := by
  haveI instTot : IsTotal NPacket (fun a b => a.Sequence ≤ b.Sequence) :=
    ⟨fun a b => Nat.le_total _ _⟩
  haveI instTrans : IsTrans NPacket (fun a b => a.Sequence ≤ b.Sequence) :=
    ⟨fun a b c hab hbc => Nat.le_trans hab hbc⟩
  have hperm := List.perm_insertionSort (fun a b => a.Sequence ≤ b.Sequence) ps
  have hsorted := List.sorted_insertionSort (fun a b => a.Sequence ≤ b.Sequence) ps
  cases hs : ps.insertionSort (fun a b => a.Sequence ≤ b.Sequence) with
  | nil =>
    rw [hs] at hperm
    exact absurd (List.Perm.eq_nil hperm.symm) h
  | cons f rest =>
    rw [hs] at hperm hsorted
    refine ⟨f, rest.getLastD f, ?_, ?_, ?_, ?_⟩
    · exact hperm.subset (List.mem_cons_self _ _)
    · exact hperm.subset (getLastD_mem f rest)
    · intro q hq
      have hq2 : q ∈ f :: rest := hperm.symm.subset hq
      constructor
      · rcases List.mem_cons.mp hq2 with h1 | h1
        · rw [h1]
        · exact List.rel_of_sorted_cons hsorted q h1
      · exact sorted_seq_getLastD f rest hsorted q hq2
    · simp only [buildMessage, hs]

/-- C9 (amended): per tick, the cache holds one non-empty batch per key and
each such batch yields exactly one Message (so items of different keys never
share one); the Message of key `k` carries `count = N`,
`sequence = min(sequence)`, `channel`/`reference`/`upi` of the min-sequence
item — but `elapsed` is the timestamp of the MAX-SEQUENCE item minus that of
the min-sequence item (the batch is sorted by sequence, not by time), which
equals `max(ts) − min(ts)` only when timestamps are monotone in sequence. -/
theorem Pool_notify_batching (items : List Item) (k : NKey)
    (h : batchOf items k ≠ []) :
    ((notifyTick (accumulate items)).map msgKey).Nodup ∧
    buildMessage k (batchOf items k) ∈ notifyTick (accumulate items) ∧
    (∀ m ∈ notifyTick (accumulate items), msgKey m = k →
      m = buildMessage k (batchOf items k)) ∧
    ∃ pmin pmax, pmin ∈ batchOf items k ∧ pmax ∈ batchOf items k ∧
      (∀ q ∈ batchOf items k, pmin.Sequence ≤ q.Sequence ∧ q.Sequence ≤ pmax.Sequence) ∧
      buildMessage k (batchOf items k) =
        ⟨k.Origin, pmin.Sequence, k.Instance, pmin.Stream, k.Realtime,
          (batchOf items k).length, pmax.TimestampNS - pmin.TimestampNS,
          (pmin.GeneratedNS.getD pmin.TimestampNS) / 1000000000,
          pmin.TimestampNS / 1000000000, pmin.Filename, pmin.UPI⟩ := by
  have hnd := nodup_cacheKeys_accumulate items
  have hlk := lookupKey_accumulate items k
  refine ⟨nodup_msgKeys _ hnd, ?_, ?_, buildMessage_spec k _ h⟩
  · have hmem : (k, lookupKey (accumulate items) k) ∈ accumulate items :=
      mem_of_lookupKey _ _ (by rw [hlk]; exact h)
    rw [hlk] at hmem
    exact mem_notifyTick _ _ _ hmem h
  · intro m hm hkey
    obtain ⟨e, he, hne, hmsg⟩ := notifyTick_mem_inv _ m hm
    obtain ⟨k2, ps⟩ := e
    have hmk : msgKey m = k2 := by rw [hmsg]; exact msgKey_buildMessage _ _
    have hk2 : k2 = k := by rw [← hmk, hkey]
    subst hk2
    have hps := lookupKey_of_mem _ _ _ hnd he
    rw [hmsg, hps, hlk]

/-- C9 (counterexample): two items of one key whose timestamps decrease as
the sequence increases.  The emitted Message's `elapsed` is the timestamp of
the max-sequence item minus that of the min-sequence item, here −50 s — not
`max(ts) − min(ts) = +50 s` as the claim states. -/
theorem Pool_notify_elapsed_not_max_minus_min :
    notifyTick (accumulate
        [⟨0, ⟨1, 100000000000, none, 3, "f1", true, "aa", ""⟩⟩,
         ⟨0, ⟨2, 50000000000, none, 3, "f2", true, "aa", ""⟩⟩]) =
      [⟨"aa", 1, 0, 3, true, 2, -50000000000, 100, 100, "f1", ""⟩] ∧
    max (100000000000 : Int) 50000000000 - min (100000000000 : Int) 50000000000 =
      50000000000 ∧
    (-50000000000 : Int) ≠ 50000000000 := by
  refine ⟨by decide, by decide, by decide⟩

/-- Witness for the amended batching law at a concrete two-item batch. -/
theorem Pool_notify_batching_witness :
    batchOf [(⟨0, ⟨1, 100000000000, none, 3, "f1", true, "aa", ""⟩⟩ : Item),
             ⟨0, ⟨2, 50000000000, none, 3, "f2", true, "aa", ""⟩⟩]
        ⟨true, "aa", 0⟩ ≠ [] ∧
    buildMessage ⟨true, "aa", 0⟩
        (batchOf [(⟨0, ⟨1, 100000000000, none, 3, "f1", true, "aa", ""⟩⟩ : Item),
                  ⟨0, ⟨2, 50000000000, none, 3, "f2", true, "aa", ""⟩⟩]
          ⟨true, "aa", 0⟩) ∈
      notifyTick (accumulate
        [⟨0, ⟨1, 100000000000, none, 3, "f1", true, "aa", ""⟩⟩,
         ⟨0, ⟨2, 50000000000, none, 3, "f2", true, "aa", ""⟩⟩]) :=
  ⟨by decide,
    (Pool_notify_batching
      [⟨0, ⟨1, 100000000000, none, 3, "f1", true, "aa", ""⟩⟩,
       ⟨0, ⟨2, 50000000000, none, 3, "f2", true, "aa", ""⟩⟩]
      ⟨true, "aa", 0⟩ (by decide)).2.1⟩
